import Mathlib

/-!
Verification of the rlottie scene-model evaluation engine
(`src/lottie/lottiemodel.h`), as a shallow embedding in Lean 4.

Conventions of the embedding:
* C++ `float`/`double` values are modelled as `ℚ` (exact arithmetic);
  `int` frame numbers as `ℤ`.
* `std::vector` becomes `List`; calling `front()`/`back()` on an empty
  vector is undefined behaviour in C++, so the Lean translations either
  return a default or an `Option`, and the theorems carry non-emptiness
  hypotheses.
* An easing curve (`VInterpolator`, external to the modelled header) is an
  abstract function `ℚ → ℚ` stored as an `Option`, mirroring the nullable
  `VInterpolator *` member.
-/

namespace Rlottie

/-- Generic linear interpolation, `lerp` of lottiemodel.h:
`start + t * (end - start)`. -/
def lerp {T : Type} [Add T] [Sub T] [SMul ℚ T] (start e : T) (t : ℚ) : T :=
  start + t • (e - start)

/-- `model::Color`: three float channels, defaulting to 1 each. -/
structure Color where
  r : ℚ := 1
  g : ℚ := 1
  b : ℚ := 1
deriving DecidableEq

instance : Inhabited Color := ⟨{}⟩

/-- Componentwise `operator-` on `Color`. -/
instance : Sub Color := ⟨fun c1 c2 => ⟨c1.r - c2.r, c1.g - c2.g, c1.b - c2.b⟩⟩

/-- Componentwise `operator+` on `Color`. -/
instance : Add Color := ⟨fun c1 c2 => ⟨c1.r + c2.r, c1.g + c2.g, c1.b + c2.b⟩⟩

/-- `operator*(float, Color)`: componentwise scaling. -/
instance : SMul ℚ Color := ⟨fun m c => ⟨c.r * m, c.g * m, c.b * m⟩⟩

/-- `VPointF` (vector module): a 2D point with componentwise arithmetic,
modelled as a pair of rationals. -/
abbrev VPointF := ℚ × ℚ

section KeyFrames

variable {T : Type} [Add T] [Sub T] [SMul ℚ T]

/-- `Value<T, void>`: a start/end value pair for one keyframe segment
(lottiemodel.h lines 166-173).  The `Position`-tagged specialization
(bezier tangents) is not needed by the claims below. -/
structure Value (T : Type) where
  start_ : T
  end_ : T

/-- `Value::at(t) = lerp(start_, end_, t)`. -/
def Value.at (v : Value T) (t : ℚ) : T :=
  lerp v.start_ v.end_ t

/-- `KeyFrames<T>::Frame`: one keyframe segment with `[start_, end_)`
frame bounds, an optional easing interpolator, and a value pair. -/
structure KFrame (T : Type) where
  start_ : ℚ := 0
  end_ : ℚ := 0
  interpolator_ : Option (ℚ → ℚ) := none
  value_ : Value T

/-- `Frame::progress(frameNo)`: eased fraction of the segment elapsed;
`0` when there is no interpolator. -/
def KFrame.progress (f : KFrame T) (frameNo : ℤ) : ℚ :=
  match f.interpolator_ with
  | some itp => itp ((frameNo - f.start_) / (f.end_ - f.start_))
  | none => 0

/-- `Frame::value(frameNo) = value_.at(progress(frameNo))`. -/
def KFrame.value (f : KFrame T) (frameNo : ℤ) : T :=
  f.value_.at (f.progress frameNo)

/-- The scan loop of `KeyFrames::value`: return the value of the first
segment whose half-open range `[start_, end_)` contains `frameNo`,
else the default (`return {}` in C++). -/
def kfScan [Inhabited T] : List (KFrame T) → ℤ → T
  | [], _ => default
  | f :: rest, n =>
    if f.start_ ≤ (n : ℚ) ∧ (n : ℚ) < f.end_ then f.value n else kfScan rest n

/-- `KeyFrames::value(frameNo)` (lottiemodel.h lines 248-259): clamp to the
first segment's start value when `front().start_ >= frameNo`, to the last
segment's end value when `back().end_ <= frameNo`, otherwise scan for the
containing segment.  The empty-list case is UB in C++ (`front()` of an
empty vector) and returns the default here. -/
def kfValue [Inhabited T] (frames : List (KFrame T)) (frameNo : ℤ) : T :=
  match frames with
  | [] => default
  | f :: rest =>
    let lastF := (f :: rest).getLast (List.cons_ne_nil f rest)
    if (frameNo : ℚ) ≤ f.start_ then f.value_.start_
    else if lastF.end_ ≤ (frameNo : ℚ) then lastF.value_.end_
    else kfScan (f :: rest) frameNo

/-- `KeyFrames::changed(prevFrame, curFrame)` (lottiemodel.h lines 274-281):
`!((first > prev && first > cur) || (last < prev && last < cur))`. -/
def kfChanged (frames : List (KFrame T)) (prevFrame curFrame : ℤ) : Bool :=
  match frames with
  | [] => false
  | f :: rest =>
    let first := f.start_
    let last := ((f :: rest).getLast (List.cons_ne_nil f rest)).end_
    !((decide (first > prevFrame) && decide (first > curFrame)) ||
      (decide (last < prevFrame) && decide (last < curFrame)))

end KeyFrames

/-- `Property<T>`: either a constant value or an animated keyframe track
(mutually exclusive union in lottiemodel.h lines 291-406). -/
inductive PropertyM (T : Type) where
  | val (v : T)
  | anim (frames : List (KFrame T))

/-- `Property::isStatic()`: true iff the constant alternative is active. -/
def PropertyM.isStatic {T : Type} : PropertyM T → Bool
  | .val _ => true
  | .anim _ => false

/-- `Property::value(frameNo)`: the constant, or the animation's value. -/
def PropertyM.value {T : Type} [Add T] [Sub T] [SMul ℚ T] [Inhabited T]
    (p : PropertyM T) (frameNo : ℤ) : T :=
  match p with
  | .val v => v
  | .anim frames => kfValue frames frameNo

/-- `Property::changed(prevFrame, curFrame)`: `false` for a static
property, else `KeyFrames::changed`. -/
def PropertyM.changed {T : Type} (p : PropertyM T) (prevFrame curFrame : ℤ) :
    Bool :=
  match p with
  | .val _ => false
  | .anim frames => kfChanged frames prevFrame curFrame

/-- C1: for an animated property with a well-formed track (non-empty, first
segment starting before the last segment ends), a query before the first
segment's start returns the first segment's start value, and a query at or
after the last segment's end returns the last segment's end value. -/
theorem c1_value_clamps {T : Type} [Add T] [Sub T] [SMul ℚ T] [Inhabited T]
    (f : KFrame T) (rest : List (KFrame T)) (frameNo : ℤ)
    (hwf : f.start_ < ((f :: rest).getLast (List.cons_ne_nil f rest)).end_) :
    ((frameNo : ℚ) < f.start_ →
      PropertyM.value (.anim (f :: rest)) frameNo = f.value_.start_) ∧
    (((f :: rest).getLast (List.cons_ne_nil f rest)).end_ ≤ (frameNo : ℚ) →
      PropertyM.value (.anim (f :: rest)) frameNo =
        ((f :: rest).getLast (List.cons_ne_nil f rest)).value_.end_) := by
  constructor
  · intro hlt
    simp only [PropertyM.value, kfValue]
    rw [if_pos (le_of_lt hlt)]
  · intro hge
    simp only [PropertyM.value, kfValue]
    rw [if_neg (by push_neg; exact lt_of_lt_of_le hwf hge), if_pos hge]

/-- Witness for C1 at a concrete track: one segment `[0,10)` with values
`3 → 7`, queried at frames `-5` and `10`. -/
theorem c1_value_clamps_witness :
    PropertyM.value (T := ℚ)
      (.anim [⟨0, 10, none, ⟨3, 7⟩⟩]) (-5) = 3 ∧
    PropertyM.value (T := ℚ)
      (.anim [⟨0, 10, none, ⟨3, 7⟩⟩]) 10 = 7 := by
  have h := c1_value_clamps (T := ℚ) ⟨0, 10, none, ⟨3, 7⟩⟩ [] 10
    (by simp [List.getLast])
  have h2 := c1_value_clamps (T := ℚ) ⟨0, 10, none, ⟨3, 7⟩⟩ [] (-5)
    (by simp [List.getLast])
  refine ⟨h2.1 (by norm_num), h.2 ?_⟩
  simp [List.getLast]

/-- C9 counterexample: for the animated track with one segment `[10,20)`,
`changed(0, 30)` returns `true` although neither frame `0` nor frame `30`
lies in the active range `[10, 20]` — the claimed "iff" fails. -/
theorem c9_counterexample :
    PropertyM.changed (T := ℚ) (.anim [⟨10, 20, none, ⟨0, 1⟩⟩]) 0 30 = true ∧
    ¬ (((10 : ℚ) ≤ ((0 : ℤ) : ℚ) ∧ ((0 : ℤ) : ℚ) ≤ 20) ∨
       ((10 : ℚ) ≤ ((30 : ℤ) : ℚ) ∧ ((30 : ℤ) : ℚ) ≤ 20)) := by
  constructor
  · simp [PropertyM.changed, kfChanged, List.getLast]
    norm_num
  · push_neg
    norm_num

/-- C9 amended: `changed(prev, cur)` is true iff the closed interval
spanned by the two query frames intersects the active range
`[first segment start, last segment end]` — equivalently, it is false iff
both frames lie strictly below the first start or both strictly above the
last end; a static property always reports `false`. -/
theorem c9_changed_iff {T : Type}
    (f : KFrame T) (rest : List (KFrame T)) (prevFrame curFrame : ℤ)
    (v : T) :
    (PropertyM.changed (.anim (f :: rest)) prevFrame curFrame = true ↔
      (f.start_ ≤ max (prevFrame : ℚ) (curFrame : ℚ) ∧
       min (prevFrame : ℚ) (curFrame : ℚ) ≤
         ((f :: rest).getLast (List.cons_ne_nil f rest)).end_)) ∧
    PropertyM.changed (T := T) (.val v) prevFrame curFrame = false := by
  refine ⟨?_, rfl⟩
  simp only [PropertyM.changed, kfChanged, Bool.not_eq_true', le_max_iff,
    min_le_iff, Bool.or_eq_false_iff, Bool.and_eq_false_iff]
  constructor
  · rintro ⟨h1, h2⟩
    constructor
    · rcases h1 with h | h <;> simp only [decide_eq_false_iff_not, not_lt] at h
      · left; exact h
      · right; exact h
    · rcases h2 with h | h <;> simp only [decide_eq_false_iff_not, not_lt] at h
      · left; exact h
      · right; exact h
  · rintro ⟨h1, h2⟩
    constructor
    · rcases h1 with h | h
      · left; simpa [not_lt] using h
      · right; simpa [not_lt] using h
    · rcases h2 with h | h
      · left; simpa [not_lt] using h
      · right; simpa [not_lt] using h

/-- Witness for C9 amended: segment `[10,20)`, frames `15` and `3`; the
interval `[3,15]` meets `[10,20]`, so `changed` is true; and a static
property reports false. -/
theorem c9_changed_iff_witness :
    PropertyM.changed (T := ℚ) (.anim [⟨10, 20, none, ⟨0, 1⟩⟩]) 15 3 = true ∧
    PropertyM.changed (T := ℚ) (.val 5) 15 3 = false := by
  have h := c9_changed_iff (T := ℚ) ⟨10, 20, none, ⟨0, 1⟩⟩ [] 15 3 5
  refine ⟨h.1.mpr ?_, h.2⟩
  constructor
  · norm_num
  · simp [List.getLast]
    norm_num

/-! ## Trim modifier (`Trim::segment`, lottiemodel.h lines 1641-1717) -/

/-- Truncation toward zero, as C++ integer conversion / `std::fmod`
quotient behaviour. -/
def qtrunc (q : ℚ) : ℤ :=
  if 0 ≤ q then ⌊q⌋ else ⌈q⌉

/-- `std::fmod(x, y)`: remainder with the sign of `x`,
`x - y * trunc(x / y)`. -/
def qfmod (x y : ℚ) : ℚ :=
  x - y * (qtrunc (x / y) : ℚ)

/-- `vCompare` (vector module, not under the modelled header).
Modelled from the spec: an approximate float equality test used for the
`diff≈0` / `diff≈1` checks, modelled as exact equality on `ℚ`. -/
def vCompareQ (a b : ℚ) : Bool :=
  a == b

/-- `Trim::Segment`: a start/end fraction pair. -/
structure TrimSegment where
  start : ℚ := 0
  end_ : ℚ := 0
deriving DecidableEq

/-- `Trim::noloop(start, end)`: order-normalized contiguous segment,
`(min, max)`. -/
def trimNoloop (start e : ℚ) : TrimSegment :=
  ⟨min start e, max start e⟩

/-- `Trim::loop(start, end)`: loop-form segment, `(max, min)`. -/
def trimLoop (start e : ℚ) : TrimSegment :=
  ⟨max start e, min start e⟩

/-- The normalized cyclic offset computed by `Trim::segment`:
`fmod(offsetDeg, 360) / 360`. -/
def trimOffset (offsetDeg : ℚ) : ℚ :=
  qfmod offsetDeg 360 / 360

/-- `Trim::segment(frameNo)` with the three property values already
evaluated at the frame: `startPct`/`endPct` are percentages, `offsetDeg` an
offset in degrees (lottiemodel.h lines 1656-1689). -/
def trimSegmentOf (startPct endPct offsetDeg : ℚ) : TrimSegment :=
  let start := startPct / 100
  let e := endPct / 100
  let offset := trimOffset offsetDeg
  let diff := |start - e|
  if vCompareQ diff 0 then ⟨0, 0⟩
  else if vCompareQ diff 1 then ⟨0, 1⟩
  else if offset > 0 then
    let start := start + offset
    let e := e + offset
    if start ≤ 1 ∧ e ≤ 1 then trimNoloop start e
    else if start > 1 ∧ e > 1 then trimNoloop (start - 1) (e - 1)
    else if start > 1 then trimLoop (start - 1) e else trimLoop start (e - 1)
  else
    let start := start + offset
    let e := e + offset
    if start ≥ 0 ∧ e ≥ 0 then trimNoloop start e
    else if start < 0 ∧ e < 0 then trimNoloop (1 + start) (1 + e)
    else if start < 0 then trimLoop (1 + start) e else trimLoop start (1 + e)

/-- Whether applying `offset` makes one endpoint fraction `x` wrap past the
`[0,1]` range: past `1` for a positive offset, below `0` otherwise
(matching the branch structure of `Trim::segment`). -/
def trimWraps (x offset : ℚ) : Prop :=
  if 0 < offset then 1 < x + offset else x + offset < 0

instance (x offset : ℚ) : Decidable (trimWraps x offset) := by
  unfold trimWraps; infer_instance

/-- C2 counterexample: `segment(start=0, end=100, offset=90°)`.  The
normalized offset is `1/4`; applying it leaves the start endpoint at
`1/4 ≤ 1` but pushes the end endpoint to `5/4 > 1` — exactly one endpoint
wraps — yet the result is the full segment `(0,1)` with `start < end`,
because the `diff≈1` early exit fires before the offset is applied.  The
claim "exactly one wrapped endpoint yields start > end" is false here. -/
theorem c2_counterexample :
    trimWraps (100 / 100) (trimOffset 90) ∧
    ¬ trimWraps (0 / 100) (trimOffset 90) ∧
    trimSegmentOf 0 100 90 = ⟨0, 1⟩ ∧
    ¬ (trimSegmentOf 0 100 90).start > (trimSegmentOf 0 100 90).end_ := by
  have hoff : trimOffset 90 = 1 / 4 := by
    simp only [trimOffset, qfmod, qtrunc]
    norm_num
  refine ⟨?_, ?_, ?_, ?_⟩
  · simp only [trimWraps, hoff]; norm_num
  · simp only [trimWraps, hoff]; norm_num
  · simp only [trimSegmentOf, vCompareQ]
    norm_num
  · simp only [trimSegmentOf, vCompareQ]
    norm_num

/-- A `noloop` segment is order-normalized: `start ≤ end`. -/
theorem trimNoloop_le (a b : ℚ) : (trimNoloop a b).start ≤ (trimNoloop a b).end_ :=
  min_le_max

/-- A `loop` segment of two distinct endpoints satisfies `end < start`. -/
theorem trimLoop_gt (a b : ℚ) (h : a ≠ b) :
    (trimLoop a b).end_ < (trimLoop a b).start :=
  min_lt_max.mpr h

/-- C2 amended: `segment(0,100,0) = (0,1)`; `segment(s,s,off) = (0,0)` for
every offset; and, provided the start/end percentages lie in `[0,100]` and
the absolute difference of their fractions is neither `0` nor `1` (so that
neither early exit fires), applying the offset so that exactly one
endpoint wraps past `[0,1]` yields a loop segment with `start > end`,
while wrapping neither or both endpoints yields `start ≤ end`.  (When the
difference is exactly `1` the offset is never applied and the full segment
`(0,1)` is returned even if exactly one endpoint would wrap.) -/
theorem c2_trim_segment (s e off : ℚ)
    (hd0 : |s / 100 - e / 100| ≠ 0) (hd1 : |s / 100 - e / 100| ≠ 1) :
    (trimSegmentOf 0 100 0 = ⟨0, 1⟩) ∧
    (∀ s₀ off₀ : ℚ, trimSegmentOf s₀ s₀ off₀ = ⟨0, 0⟩) ∧
    ((trimWraps (s / 100) (trimOffset off) ↔
        ¬ trimWraps (e / 100) (trimOffset off)) →
      (trimSegmentOf s e off).start > (trimSegmentOf s e off).end_) ∧
    ((trimWraps (s / 100) (trimOffset off) ↔
        trimWraps (e / 100) (trimOffset off)) →
      (trimSegmentOf s e off).start ≤ (trimSegmentOf s e off).end_) := by
  have hfull : trimSegmentOf 0 100 0 = ⟨0, 1⟩ := by
    simp only [trimSegmentOf, vCompareQ]
    norm_num
  have hempty : ∀ s₀ off₀ : ℚ, trimSegmentOf s₀ s₀ off₀ = ⟨0, 0⟩ := by
    intro s₀ off₀
    simp only [trimSegmentOf, vCompareQ]
    norm_num
  set o := trimOffset off with ho
  have hne : s / 100 + o ≠ e / 100 + o + 1 := fun hc =>
    hd1 (by rw [show s / 100 - e / 100 = 1 by linarith]; norm_num)
  have hne2 : e / 100 + o ≠ s / 100 + o + 1 := fun hc =>
    hd1 (by rw [show s / 100 - e / 100 = -1 by linarith]; norm_num)
  have hd0b : vCompareQ |s / 100 - e / 100| 0 = false := by
    simp [vCompareQ, hd0]
  have hd1b : vCompareQ |s / 100 - e / 100| 1 = false := by
    simp [vCompareQ, hd1]
  refine ⟨hfull, hempty, ?_, ?_⟩
  · intro hw
    simp only [trimSegmentOf, hd0b, hd1b, Bool.false_eq_true, if_false, ← ho]
    by_cases hpos : o > 0
    · simp only [trimWraps, if_pos hpos] at hw
      rw [if_pos hpos]
      by_cases hws : 1 < s / 100 + o
      · have hwe : ¬ 1 < e / 100 + o := hw.mp hws
        rw [if_neg (fun h => absurd hws (not_lt.mpr h.1)),
          if_neg (fun h => hwe h.2), if_pos hws]
        exact trimLoop_gt _ _ (fun hc => hne (by linarith))
      · have hwe : 1 < e / 100 + o := by
          by_contra hno
          exact hws (hw.mpr hno)
        rw [if_neg (fun h => absurd hwe (not_lt.mpr h.2)),
          if_neg (fun h => hws h.1), if_neg hws]
        exact trimLoop_gt _ _ (fun hc => hne2 (by linarith))
    · simp only [trimWraps, if_neg hpos] at hw
      rw [if_neg hpos]
      by_cases hws : s / 100 + o < 0
      · have hwe : ¬ e / 100 + o < 0 := hw.mp hws
        rw [if_neg (fun h => absurd hws (not_lt.mpr h.1)),
          if_neg (fun h => hwe h.2), if_pos hws]
        exact trimLoop_gt _ _ (fun hc => hne2 (by linarith))
      · have hwe : e / 100 + o < 0 := by
          by_contra hno
          exact hws (hw.mpr hno)
        rw [if_neg (fun h => absurd hwe (not_lt.mpr h.2)),
          if_neg (fun h => hws h.1), if_neg hws]
        exact trimLoop_gt _ _ (fun hc => hne (by linarith))
  · intro hw
    simp only [trimSegmentOf, hd0b, hd1b, Bool.false_eq_true, if_false, ← ho]
    by_cases hpos : o > 0
    · simp only [trimWraps, if_pos hpos] at hw
      rw [if_pos hpos]
      by_cases hws : 1 < s / 100 + o
      · have hwe : 1 < e / 100 + o := hw.mp hws
        rw [if_neg (fun h => absurd hws (not_lt.mpr h.1)), if_pos ⟨hws, hwe⟩]
        exact trimNoloop_le _ _
      · have hwe : ¬ 1 < e / 100 + o := fun h => hws (hw.mpr h)
        rw [if_pos ⟨not_lt.mp hws, not_lt.mp hwe⟩]
        exact trimNoloop_le _ _
    · simp only [trimWraps, if_neg hpos] at hw
      rw [if_neg hpos]
      by_cases hws : s / 100 + o < 0
      · have hwe : e / 100 + o < 0 := hw.mp hws
        rw [if_neg (fun h => absurd hws (not_lt.mpr h.1)), if_pos ⟨hws, hwe⟩]
        exact trimNoloop_le _ _
      · have hwe : ¬ e / 100 + o < 0 := fun h => hws (hw.mpr h)
        rw [if_pos ⟨not_lt.mp hws, not_lt.mp hwe⟩]
        exact trimNoloop_le _ _

/-- Witness for C2 amended at `s = 20`, `e = 60`, `off = 180` (normalized
offset `1/2`): both endpoints shifted (`0.7`, `1.1`), exactly the end
endpoint wraps, and the resulting segment has `start > end`. -/
theorem c2_trim_segment_witness :
    |((20 : ℚ) / 100) - ((60 : ℚ) / 100)| ≠ 0 ∧
    |((20 : ℚ) / 100) - ((60 : ℚ) / 100)| ≠ 1 ∧
    (trimSegmentOf 20 60 180).start > (trimSegmentOf 20 60 180).end_ := by
  have hoff : trimOffset 180 = 1 / 2 := by
    simp only [trimOffset, qfmod, qtrunc]
    norm_num
  have hd0 : |((20 : ℚ) / 100) - ((60 : ℚ) / 100)| ≠ 0 := by norm_num
  have hd1 : |((20 : ℚ) / 100) - ((60 : ℚ) / 100)| ≠ 1 := by
    rw [show ((20 : ℚ) / 100) - ((60 : ℚ) / 100) = -(2 / 5) from by norm_num,
      abs_neg, abs_of_nonneg (by norm_num : (0 : ℚ) ≤ 2 / 5)]
    norm_num
  refine ⟨hd0, hd1, ?_⟩
  refine (c2_trim_segment 20 60 180 hd0 hd1).2.2.1 ?_
  simp only [trimWraps, hoff]
  norm_num

/-! ## Gradient data arithmetic (lottiemodel.h lines 1719-1761) -/

/-- `Gradient::Data`: a flattened numeric sequence of stop data. -/
structure GradientData where
  mGradient : List ℚ
deriving DecidableEq

/-- `operator+(Gradient::Data, Gradient::Data)`: elementwise sum, or the
left operand unchanged when the lengths differ. -/
def gradAdd (g1 g2 : GradientData) : GradientData :=
  if g1.mGradient.length ≠ g2.mGradient.length then g1
  else ⟨List.zipWith (· + ·) g1.mGradient g2.mGradient⟩

/-- `operator-(Gradient::Data, Gradient::Data)`: elementwise difference,
or the left operand unchanged when the lengths differ. -/
def gradSub (g1 g2 : GradientData) : GradientData :=
  if g1.mGradient.length ≠ g2.mGradient.length then g1
  else ⟨List.zipWith (· - ·) g1.mGradient g2.mGradient⟩

/-- Elementwise `(a + b) - b = a` over equal-length rational sequences. -/
theorem zipWith_add_sub_cancel :
    ∀ (l1 l2 : List ℚ), l1.length = l2.length →
      List.zipWith (· - ·) (List.zipWith (· + ·) l1 l2) l2 = l1
  | [], [], _ => rfl
  | [], _ :: _, h => by simp at h
  | _ :: _, [], h => by simp at h
  | a :: l1, b :: l2, h => by
    simp only [List.zipWith_cons_cons, add_sub_cancel_right, List.cons.injEq,
      true_and]
    exact zipWith_add_sub_cancel l1 l2 (by simpa using h)

/-- C7: for equal-length operands, `(a + b) - b = a` exactly (exact
rational arithmetic stands in for "within floating tolerance"); for
mismatched lengths both `operator+` and `operator-` return the left
operand unchanged. -/
theorem c7_gradient_data_arith (a b : GradientData) :
    (a.mGradient.length = b.mGradient.length →
      gradSub (gradAdd a b) b = a) ∧
    (a.mGradient.length ≠ b.mGradient.length →
      gradAdd a b = a ∧ gradSub a b = a) := by
  constructor
  · intro hlen
    have hadd : gradAdd a b = ⟨List.zipWith (· + ·) a.mGradient b.mGradient⟩ := by
      rw [gradAdd, if_neg (by simp [hlen])]
    have hlen2 : (List.zipWith (· + ·) a.mGradient b.mGradient).length =
        b.mGradient.length := by
      simp [List.length_zipWith, hlen]
    rw [hadd, gradSub, if_neg (by simp [hlen2])]
    cases a with
    | mk la =>
      simp only [GradientData.mk.injEq]
      exact zipWith_add_sub_cancel la b.mGradient hlen
  · intro hlen
    rw [gradAdd, if_pos hlen, gradSub, if_pos hlen]
    exact ⟨rfl, rfl⟩

/-- Witness for C7: `a = [1, 2]`, `b = [10, 20]` round-trips through
add/sub; against `c = [5]` both operators return `a` unchanged. -/
theorem c7_gradient_data_arith_witness :
    gradSub (gradAdd ⟨[1, 2]⟩ ⟨[10, 20]⟩) ⟨[10, 20]⟩ = ⟨[1, 2]⟩ ∧
    gradAdd ⟨[1, 2]⟩ ⟨[5]⟩ = ⟨[1, 2]⟩ ∧ gradSub ⟨[1, 2]⟩ ⟨[5]⟩ = ⟨[1, 2]⟩ := by
  refine ⟨(c7_gradient_data_arith ⟨[1, 2]⟩ ⟨[10, 20]⟩).1 (by simp), ?_⟩
  exact (c7_gradient_data_arith ⟨[1, 2]⟩ ⟨[5]⟩).2 (by simp)

/-! ## Text document selection (`TextLayerData::textDocument`,
lottiemodel.h lines 1166-1173) -/

/-- `Justification` of a text document. -/
inductive Justification where
  | Left
  | Right
  | Center
deriving DecidableEq

/-- The fields of `TextDocument` consumed by document selection and
`getTextData`: the keyframe time and the per-document style values.
`textLen` stands for `mText.size()` (the decoded character count). -/
structure TextDocumentM where
  mTime : ℤ := 0
  mSize : ℤ := 0
  textLen : ℕ := 0
  mJustification : Justification := .Left
  mLineHeight : ℚ := 0
  mBaselineShift : ℚ := 0
  mStrokeOverFill : Bool := false
  mStrokeWidth : ℚ := 0
  mFillColor : Color := {}
  mStrokeColor : Color := {}
deriving DecidableEq

/-- `TextLayerData::textDocument(frameNo)`: scan the stored documents in
order and return the first whose `mTime >= frameNo`, else `back()`.
On an empty vector `back()` is UB in C++; `none` here. -/
def textDocumentSel (docs : List TextDocumentM) (frameNo : ℤ) :
    Option TextDocumentM :=
  match docs.find? (fun d => decide (frameNo ≤ d.mTime)) with
  | some d => some d
  | none => docs.getLast?

/-- `List.find?` returns the element at the first index satisfying the
predicate when all earlier indices fail it. -/
theorem find_eq_first_sat {α : Type} (p : α → Bool) :
    ∀ (l : List α) (i : ℕ) (hi : i < l.length),
      p (l.get ⟨i, hi⟩) = true →
      (∀ j (hj : j < i), p (l.get ⟨j, Nat.lt_trans hj hi⟩) = false) →
      l.find? p = some (l.get ⟨i, hi⟩)
  | [], i, hi, _, _ => by simp at hi
  | a :: l, 0, hi, hsat, _ => by
    simp only [List.get] at hsat
    simp [List.find?_cons, hsat]
  | a :: l, k + 1, hi, hsat, hbefore => by
    have hafails : p a = false := hbefore 0 (Nat.succ_pos k)
    have hrec := find_eq_first_sat p l k (by simpa using hi)
      (by simpa using hsat)
      (fun j hj => by simpa using hbefore (j + 1) (Nat.succ_lt_succ hj))
    simp only [List.find?_cons, hafails]
    simpa using hrec

/-- C8: the selected document is the first in stored order whose start
frame is `≥` the queried frame, and the last stored document when no
document satisfies that condition. -/
theorem c8_text_document_selection (docs : List TextDocumentM) (frameNo : ℤ)
    (hne : docs ≠ []) :
    ((∀ d ∈ docs, d.mTime < frameNo) →
      textDocumentSel docs frameNo = some (docs.getLast hne)) ∧
    (∀ i (hi : i < docs.length),
      frameNo ≤ (docs.get ⟨i, hi⟩).mTime →
      (∀ j (hj : j < i), (docs.get ⟨j, Nat.lt_trans hj hi⟩).mTime < frameNo) →
      textDocumentSel docs frameNo = some (docs.get ⟨i, hi⟩)) := by
  constructor
  · intro hall
    have hfind : docs.find? (fun d => decide (frameNo ≤ d.mTime)) = none := by
      rw [List.find?_eq_none]
      intro d hd
      simpa using not_le.mpr (hall d hd)
    rw [textDocumentSel, hfind, List.getLast?_eq_getLast docs hne]
  · intro i hi hsat hbefore
    have hfind := find_eq_first_sat (fun d => decide (frameNo ≤ d.mTime))
      docs i hi (by simpa using hsat)
      (fun j hj => by simpa using not_le.mpr (hbefore j hj))
    rw [textDocumentSel, hfind]

/-- Witness for C8: documents at times `5, 12, 20`; frame `8` selects the
time-12 document (first with time ≥ 8); frame `99` falls back to the last
document. -/
theorem c8_text_document_selection_witness :
    textDocumentSel
      [{ mTime := 5 }, { mTime := 12 }, { mTime := 20 }] 8 =
      some { mTime := 12 } ∧
    textDocumentSel
      [{ mTime := 5 }, { mTime := 12 }, { mTime := 20 }] 99 =
      some { mTime := 20 } := by
  constructor
  · refine (c8_text_document_selection
      [{ mTime := 5 }, { mTime := 12 }, { mTime := 20 }] 8 (by simp)).2
      1 (by norm_num) (by norm_num) ?_
    intro j hj
    interval_cases j
    norm_num
  · refine (c8_text_document_selection
      [{ mTime := 5 }, { mTime := 12 }, { mTime := 20 }] 99 (by simp)).1 ?_
    intro d hd
    fin_cases hd <;> norm_num

/-! ## Per-character text evaluation (`TextLayerData::getTextData`,
lottiemodel.h lines 1199-1292) -/

/-- `CharAnimatedProperties`: the per-character evaluated snapshot with
its C++ default member values. -/
structure CharAnimatedProperties where
  opacity : ℚ := 100
  rotation : ℚ := 0
  tracking : ℚ := 0
  strokeWidth : ℚ := 0
  position : VPointF := (0, 0)
  scale : VPointF := (100, 100)
  anchor : VPointF := (0, 0)
  fillColor : Color := ⟨0, 0, 0⟩
  strokeColor : Color := ⟨0, 0, 0⟩
deriving DecidableEq

/-- `PropertyText`: the tagged union of animatable per-character
properties (lottiemodel.h lines 411-561), with its payload `Property`. -/
inductive PropertyText where
  | Opacity (p : PropertyM ℚ)
  | Rotation (p : PropertyM ℚ)
  | Tracking (p : PropertyM ℚ)
  | StrokeWidth (p : PropertyM ℚ)
  | Position (p : PropertyM VPointF)
  | Scale (p : PropertyM VPointF)
  | Anchor (p : PropertyM VPointF)
  | StrokeColor (p : PropertyM Color)
  | FillColor (p : PropertyM Color)

/-- `TextAnimator`: a bundle of animated properties plus the range
selector (lottiemodel.h lines 1147-1162), with the C++ defaults
`mRangeStart = 0`, `mRangeEnd = 100`, `mRangeUnit = 0`,
`mHasRange = false`. -/
structure TextAnimatorM where
  mAnimatedProperties : List PropertyText := []
  mRangeType : ℤ := 0
  mRangeUnit : ℤ := 0
  mRangeStart : PropertyM ℚ := .val 0
  mRangeEnd : PropertyM ℚ := .val 100
  mHasRange : Bool := false

/-- `TextLayerData`: ordered documents plus animators. -/
structure TextLayerDataM where
  mTextDocument : List TextDocumentM := []
  mTextAnimator : List TextAnimatorM := []

/-- `TextLayerData::isStatic()`: no animators and at most one document. -/
def textLayerIsStatic (l : TextLayerDataM) : Bool :=
  l.mTextAnimator.isEmpty && decide (l.mTextDocument.length ≤ 1)

/-- `TextLayerData::hasRange()`: some animator has a range selector. -/
def textLayerHasRange (l : TextLayerDataM) : Bool :=
  l.mTextAnimator.any (·.mHasRange)

/-- The five-way overlap classification inside `getTextData`
(lottiemodel.h lines 1237-1252), computing the animator weight
(`progress`) of character index `i` against the converted range
`[rangeStartIndex, rangeEndIndex)`. -/
def charProgress (rangeStartIndex rangeEndIndex : ℚ) (i : ℤ) : ℚ :=
  if rangeStartIndex ≤ i ∧ (i : ℚ) + 1 ≤ rangeEndIndex then 1
  else if (i : ℚ) ≤ rangeStartIndex ∧ rangeEndIndex ≤ (i : ℚ) + 1 then
    rangeEndIndex - rangeStartIndex
  else if rangeStartIndex ≤ i ∧ (i : ℚ) ≤ rangeEndIndex ∧
      rangeEndIndex ≤ (i : ℚ) + 1 then
    rangeEndIndex - i
  else if (i : ℚ) ≤ rangeStartIndex ∧ rangeStartIndex ≤ (i : ℚ) + 1 ∧
      (i : ℚ) + 1 ≤ rangeEndIndex then
    (i : ℚ) + 1 - rangeStartIndex
  else 0

/-- The `switch (property.type())` body: blend one animated property into
the running per-character value with weight `progress`. -/
def applyTextProperty (frameNo : ℤ) (progress : ℚ)
    (animProp : CharAnimatedProperties) : PropertyText →
    CharAnimatedProperties
  | .Opacity p =>
    { animProp with opacity := lerp animProp.opacity (p.value frameNo) progress }
  | .Rotation p =>
    { animProp with rotation := lerp animProp.rotation (p.value frameNo) progress }
  | .Tracking p =>
    { animProp with tracking := lerp animProp.tracking (p.value frameNo) progress }
  | .StrokeWidth p =>
    { animProp with strokeWidth := lerp animProp.strokeWidth (p.value frameNo) progress }
  | .Position p =>
    { animProp with position := lerp animProp.position (p.value frameNo) progress }
  | .Scale p =>
    { animProp with scale := lerp animProp.scale (p.value frameNo) progress }
  | .Anchor p =>
    { animProp with anchor := lerp animProp.anchor (p.value frameNo) progress }
  | .FillColor p =>
    { animProp with fillColor := lerp animProp.fillColor (p.value frameNo) progress }
  | .StrokeColor p =>
    { animProp with strokeColor := lerp animProp.strokeColor (p.value frameNo) progress }

/-- The body of the per-character loop: initialize the record from the
document's stroke width and colors, then fold the animators over it in
declaration order. -/
def charRecord (doc : TextDocumentM) (anims : List TextAnimatorM)
    (frameNo : ℤ) (textLength : ℤ) (i : ℤ) : CharAnimatedProperties :=
  let init : CharAnimatedProperties :=
    { strokeWidth := doc.mStrokeWidth, fillColor := doc.mFillColor,
      strokeColor := doc.mStrokeColor }
  anims.foldl (fun animProp textAnim =>
    let rangeStartIndex := textAnim.mRangeStart.value frameNo
    let rangeEndIndex := textAnim.mRangeEnd.value frameNo
    let rangeStartIndex :=
      if textAnim.mRangeUnit = 1 then rangeStartIndex / 100 * (textLength : ℚ)
      else rangeStartIndex
    let rangeEndIndex :=
      if textAnim.mRangeUnit = 1 then rangeEndIndex / 100 * (textLength : ℚ)
      else rangeEndIndex
    let progress := charProgress rangeStartIndex rangeEndIndex i
    if progress > 0 then
      textAnim.mAnimatedProperties.foldl (applyTextProperty frameNo progress)
        animProp
    else animProp) init

/-- The snapshot `TextData` filled by `getTextData`: common document
properties plus the per-character list. -/
structure TextDataM where
  strokeOverFill : Bool := false
  justification : Justification := .Left
  fontSize : ℤ := 0
  lineHeight : ℚ := 0
  baselineShift : ℚ := 0
  charAnimPropList : List CharAnimatedProperties := []
deriving DecidableEq

/-- `TextLayerData::getTextData(obj, frameNo)`: select the active
document, copy its common properties, shrink the expansion to a single
record when the layer is static or rangeless, and evaluate one
`CharAnimatedProperties` per character index.  `none` when there is no
document (UB in C++). -/
def getTextData (l : TextLayerDataM) (frameNo : ℤ) : Option TextDataM :=
  (textDocumentSel l.mTextDocument frameNo).map fun doc =>
    let textLength : ℤ :=
      if textLayerIsStatic l || !textLayerHasRange l then 1
      else (doc.textLen : ℤ)
    { strokeOverFill := doc.mStrokeOverFill
      justification := doc.mJustification
      fontSize := doc.mSize
      lineHeight := doc.mLineHeight
      baselineShift := doc.mBaselineShift
      charAnimPropList :=
        (List.range textLength.toNat).map fun i =>
          charRecord doc l.mTextAnimator frameNo textLength (Int.ofNat i) }

/-- C3: the animator weight of character `i` (unit interval `[i, i+1)`)
against the selector range `[rangeStart, rangeEnd)`: full containment
gives weight `1`; disjointness (given `rangeStart ≤ rangeEnd`) gives
weight `0`; straddling exactly the left or exactly the right boundary
gives a weight strictly between `0` and `1`, equal to the covered
fraction of the character. -/
theorem c3_char_progress (rs re : ℚ) (i : ℤ) :
    (rs ≤ i → (i : ℚ) + 1 ≤ re → charProgress rs re i = 1) ∧
    (rs ≤ re → re ≤ i → charProgress rs re i = 0) ∧
    (rs ≤ re → (i : ℚ) + 1 ≤ rs → charProgress rs re i = 0) ∧
    ((i : ℚ) < rs → rs < (i : ℚ) + 1 → (i : ℚ) + 1 ≤ re →
      charProgress rs re i = (i : ℚ) + 1 - rs ∧
      0 < charProgress rs re i ∧ charProgress rs re i < 1) ∧
    (rs ≤ i → (i : ℚ) < re → re < (i : ℚ) + 1 →
      charProgress rs re i = re - i ∧
      0 < charProgress rs re i ∧ charProgress rs re i < 1) := by
  refine ⟨?_, ?_, ?_, ?_, ?_⟩
  · intro h1 h2
    rw [charProgress, if_pos ⟨h1, h2⟩]
  · intro hle hri
    rw [charProgress]
    split
    · rename_i h
      linarith [h.2]
    · split
      · rename_i h
        linarith [le_antisymm (le_trans hle hri) h.1,
          le_antisymm hri (le_trans h.1 hle)]
      · split
        · rename_i h
          linarith [le_antisymm hri h.2.1]
        · split
          · rename_i h
            linarith [h.2.2, hle, hri]
          · rfl
  · intro hle hri
    rw [charProgress]
    split
    · rename_i h
      linarith [h.1]
    · split
      · rename_i h
        linarith [le_antisymm (le_trans hri hle) h.2,
          le_antisymm h.2 (le_trans hri hle)]
      · split
        · rename_i h
          linarith [h.1]
        · split
          · rename_i h
            linarith [le_antisymm h.2.1 hri, hle]
          · rfl
  · intro h1 h2 h3
    rw [charProgress]
    rw [if_neg (fun h => absurd h1 (not_lt.mpr h.1))]
    by_cases hre : re ≤ (i : ℚ) + 1
    · have hre2 : re = (i : ℚ) + 1 := le_antisymm hre h3
      rw [if_pos ⟨le_of_lt h1, hre⟩, hre2]
      refine ⟨rfl, by linarith, by linarith⟩
    · rw [if_neg (fun h => hre h.2), if_neg (fun h => hre h.2.2),
        if_pos ⟨le_of_lt h1, le_of_lt h2, h3⟩]
      refine ⟨rfl, by linarith, by linarith⟩
  · intro h1 h2 h3
    rw [charProgress]
    rw [if_neg (fun h => absurd h3 (not_lt.mpr h.2))]
    by_cases hrs : (i : ℚ) ≤ rs
    · have hrs2 : rs = (i : ℚ) := le_antisymm h1 hrs
      rw [if_pos ⟨hrs, le_of_lt h3⟩, hrs2]
      refine ⟨rfl, by linarith, by linarith⟩
    · rw [if_neg (fun h => hrs h.1),
        if_pos ⟨h1, le_of_lt h2, le_of_lt h3⟩]
      refine ⟨rfl, by linarith, by linarith⟩

/-- Witness for C3 at range `[1, 3)`: character `1` is fully covered
(weight 1), character `5` is disjoint (weight 0), character `0` is
untouched below the range (weight 0), and against range `[0.5, 2.75)`
character `2` straddles only the right boundary with weight `3/4` while
character `0` straddles only the left boundary with weight `1/2`. -/
theorem c3_char_progress_witness :
    charProgress 1 3 1 = 1 ∧
    charProgress 1 3 5 = 0 ∧
    charProgress 1 3 0 = 0 ∧
    charProgress (1 / 2) (11 / 4) 2 = 3 / 4 ∧
    charProgress (1 / 2) (11 / 4) 0 = 1 / 2 := by
  refine ⟨(c3_char_progress 1 3 1).1 (by norm_num) (by norm_num),
    (c3_char_progress 1 3 5).2.1 (by norm_num) (by norm_num),
    ?_, ?_, ?_⟩
  · have h := (c3_char_progress 1 3 0).2.2.1 (by norm_num) (by norm_num)
    exact h
  · have h := ((c3_char_progress (1 / 2) (11 / 4) 2).2.2.2.2
      (by norm_num) (by norm_num) (by norm_num)).1
    rw [h]
    norm_num
  · have h := ((c3_char_progress (1 / 2) (11 / 4) 0).2.2.2.1
      (by norm_num) (by norm_num) (by norm_num)).1
    rw [h]
    norm_num

/-- The character record as initialized directly from a document's values
(stroke width and the two colors; everything else at its C++ default)
before any animator is applied. -/
def docInitRecord (doc : TextDocumentM) : CharAnimatedProperties :=
  { strokeWidth := doc.mStrokeWidth, fillColor := doc.mFillColor,
    strokeColor := doc.mStrokeColor }

/-- A document with stroke width `2` and three characters of text. -/
def c4doc : TextDocumentM :=
  { mTime := 0, mSize := 12, textLen := 3, mStrokeWidth := 2 }

/-- An animator with no range selector whose only animated property sets
the stroke width to `7`. -/
def c4anim : TextAnimatorM :=
  { mAnimatedProperties := [.StrokeWidth (.val 7)], mHasRange := false }

/-- A text layer with one document and one rangeless animator. -/
def c4layer : TextLayerDataM :=
  { mTextDocument := [c4doc], mTextAnimator := [c4anim] }

/-- C4 counterexample: `c4layer` is neither static nor has any range
selector, so the fast path is taken (one character record) — but the
record's stroke width is `7`, the rangeless animator's value, not the
document's `2`: the fast path does not take the values directly from the
selected document. -/
theorem c4_counterexample :
    textLayerIsStatic c4layer = false ∧
    textLayerHasRange c4layer = false ∧
    (getTextData c4layer 0).map
      (fun td => td.charAnimPropList.map (·.strokeWidth)) = some [7] ∧
    c4doc.mStrokeWidth = 2 ∧ (7 : ℚ) ≠ 2 := by
  refine ⟨rfl, rfl, ?_, rfl, by norm_num⟩
  have hsw : (charRecord c4doc [c4anim] 0 1 0).strokeWidth = 7 := by
    have hprog : charProgress 0 100 (0 : ℤ) = 1 := by
      simp only [charProgress]
      norm_num
    simp only [charRecord, List.foldl_cons, List.foldl_nil, c4anim, c4doc,
      PropertyM.value]
    norm_num [hprog, applyTextProperty, lerp, smul_eq_mul, PropertyM.value]
  have hstep : getTextData c4layer 0 =
      some { strokeOverFill := false, fontSize := 12, lineHeight := 0,
             baselineShift := 0,
             charAnimPropList := [charRecord c4doc [c4anim] 0 1 0] } := rfl
  rw [hstep]
  simp only [Option.map_some', List.map_cons, List.map_nil]
  rw [hsw]

/-- C4 amended: when the layer is static or no animator has a range
selector, `getTextData` produces exactly one shared character record; the
record is initialized from the selected document's stroke width and
colors, and when the layer has no animators at all it is exactly that
document-derived record — but animators without a range selector are
still blended into the single record. -/
theorem c4_fast_path (l : TextLayerDataM) (frameNo : ℤ)
    (h : textLayerIsStatic l = true ∨ textLayerHasRange l = false)
    (td : TextDataM) (htd : getTextData l frameNo = some td) :
    td.charAnimPropList.length = 1 ∧
    (l.mTextAnimator = [] →
      ∀ doc, textDocumentSel l.mTextDocument frameNo = some doc →
        td.charAnimPropList = [docInitRecord doc]) := by
  rw [getTextData] at htd
  rcases Option.map_eq_some'.mp htd with ⟨doc, hdoc, hmap⟩
  have hcond : (textLayerIsStatic l || !textLayerHasRange l) = true := by
    rcases h with h | h <;> simp [h]
  rw [if_pos hcond] at hmap
  subst hmap
  constructor
  · simp
  · intro hanim doc2 hdoc2
    rw [hdoc] at hdoc2
    cases hdoc2
    have hr : List.range (1 : ℤ).toNat = [0] := rfl
    simp only [hanim, hr, List.map_cons, List.map_nil, charRecord,
      List.foldl_nil]
    rfl

/-- Witness for C4 amended: a static layer (one document, no animators);
its single record is exactly the document-derived one. -/
theorem c4_fast_path_witness :
    (getTextData { mTextDocument := [c4doc], mTextAnimator := [] } 0 =
      some { strokeOverFill := false, fontSize := 12, lineHeight := 0,
             baselineShift := 0,
             charAnimPropList := [docInitRecord c4doc] }) ∧
    (textLayerIsStatic { mTextDocument := [c4doc], mTextAnimator := [] } =
      true ∨
     textLayerHasRange { mTextDocument := [c4doc], mTextAnimator := [] } =
      false) ∧
    ({ strokeOverFill := false, fontSize := 12, lineHeight := 0,
       baselineShift := 0,
       charAnimPropList := [docInitRecord c4doc] } :
        TextDataM).charAnimPropList.length = 1 := by
  have htd : getTextData { mTextDocument := [c4doc], mTextAnimator := [] } 0 =
      some { strokeOverFill := false, fontSize := 12, lineHeight := 0,
             baselineShift := 0,
             charAnimPropList := [docInitRecord c4doc] } := by
    simp only [getTextData, c4doc, textDocumentSel, textLayerIsStatic,
      textLayerHasRange, charRecord, docInitRecord]
    rfl
  have h := c4_fast_path { mTextDocument := [c4doc], mTextAnimator := [] } 0
    (Or.inl rfl) _ htd
  exact ⟨htd, Or.inl rfl, h.1⟩

/-! ## Path interpolation (`PathData::lerp` / `PathData::toPath`,
lottiemodel.h lines 114-164)

`VPath` (vector module, not under the modelled header) is modelled by the
sequence of builder commands issued to it (`moveTo` / `cubicTo` /
`close`); `reset()` is the empty sequence and `reserve` only
pre-allocates.  The point count of a command sequence counts the control
points handed to the builder (one per `moveTo`, three per `cubicTo`). -/

/-- One `VPath` builder command. -/
inductive PathCmd where
  | moveTo (p : VPointF)
  | cubicTo (p1 p2 p3 : VPointF)
  | close
deriving DecidableEq

/-- `PathData`: raw control points plus the closed flag. -/
structure PathDataM where
  mPoints : List VPointF := []
  mClosed : Bool := false
deriving DecidableEq

/-- The `for (i = 1; i < size; i += 3)` cubic-emission loop shared by
`PathData::lerp` and `PathData::toPath`, applied to the points after the
first.  When fewer than three points remain the C++ loop reads past the
end of the vector (UB); the translation stops, and the theorems below
assume `size % 3 = 1` so this case never arises. -/
def cubicsOf : List VPointF → List PathCmd
  | a :: b :: c :: rest => .cubicTo a b c :: cubicsOf rest
  | _ => []

/-- `PathData::lerp(start, end, t, result)`: empty result if either
operand is empty; otherwise moveTo the lerped first point, emit lerped
cubics over `min(sizes)` points, and close iff `start.mClosed`. -/
def pathDataLerp (start e : PathDataM) (t : ℚ) : List PathCmd :=
  if start.mPoints.isEmpty || e.mPoints.isEmpty then []
  else
    match List.zipWith (fun a b => lerp a b t) start.mPoints e.mPoints with
    | [] => []
    | p :: rest =>
      .moveTo p ::
        (cubicsOf rest ++ if start.mClosed then [.close] else [])

/-- `PathData::toPath(path)`: the same construction from the raw points. -/
def pathDataToPath (p : PathDataM) : List PathCmd :=
  match p.mPoints with
  | [] => []
  | q :: rest =>
    .moveTo q :: (cubicsOf rest ++ if p.mClosed then [.close] else [])

/-- Control points handed to the path builder by a command sequence. -/
def pointCount : List PathCmd → ℕ
  | [] => 0
  | .moveTo _ :: rest => 1 + pointCount rest
  | .cubicTo _ _ _ :: rest => 3 + pointCount rest
  | .close :: rest => pointCount rest

/-- Whether a command is `close`. -/
def isCloseCmd : PathCmd → Bool
  | .close => true
  | _ => false

/-- Whether a command sequence closes its contour. -/
def hasCloseCmd (l : List PathCmd) : Bool :=
  l.any isCloseCmd

/-- `pointCount` distributes over concatenation. -/
theorem pointCount_append : ∀ l1 l2 : List PathCmd,
    pointCount (l1 ++ l2) = pointCount l1 + pointCount l2
  | [], l2 => by simp [pointCount]
  | .moveTo p :: rest, l2 => by
    show 1 + pointCount (rest ++ l2) = 1 + pointCount rest + pointCount l2
    rw [pointCount_append rest l2]
    omega
  | .cubicTo p1 p2 p3 :: rest, l2 => by
    show 3 + pointCount (rest ++ l2) = 3 + pointCount rest + pointCount l2
    rw [pointCount_append rest l2]
    omega
  | .close :: rest, l2 => by
    show pointCount (rest ++ l2) = pointCount rest + pointCount l2
    exact pointCount_append rest l2

/-- The cubic loop emits exactly its input points when their number is a
multiple of three. -/
theorem cubicsOf_pointCount : ∀ l : List VPointF, l.length % 3 = 0 →
    pointCount (cubicsOf l) = l.length
  | [], _ => rfl
  | [a], h => by simp at h
  | [a, b], h => by simp at h
  | a :: b :: c :: rest, h => by
    have ih := cubicsOf_pointCount rest (by
      simp only [List.length_cons] at h ⊢
      omega)
    simp only [cubicsOf, pointCount, ih, List.length_cons]
    omega

/-- The cubic loop never emits a `close`. -/
theorem cubicsOf_noClose : ∀ l : List VPointF,
    hasCloseCmd (cubicsOf l) = false
  | [] => rfl
  | [a] => rfl
  | [a, b] => rfl
  | a :: b :: c :: rest => by
    have ih := cubicsOf_noClose rest
    simp only [cubicsOf, hasCloseCmd, List.any_cons, isCloseCmd,
      Bool.false_or] at ih ⊢
    exact ih

/-- Lerp at `t = 0` over two equal-length point lists returns the first. -/
theorem zipWith_lerp_zero : ∀ l1 l2 : List VPointF, l1.length = l2.length →
    List.zipWith (fun a b => lerp a b 0) l1 l2 = l1
  | [], [], _ => rfl
  | [], _ :: _, h => by simp at h
  | _ :: _, [], h => by simp at h
  | a :: l1, b :: l2, h => by
    simp only [List.zipWith_cons_cons, List.cons.injEq]
    refine ⟨by simp [lerp], zipWith_lerp_zero l1 l2 (by simpa using h)⟩

/-- Lerp at `t = 1` over two equal-length point lists returns the second. -/
theorem zipWith_lerp_one : ∀ l1 l2 : List VPointF, l1.length = l2.length →
    List.zipWith (fun a b => lerp a b 1) l1 l2 = l2
  | [], [], _ => rfl
  | [], _ :: _, h => by simp at h
  | _ :: _, [], h => by simp at h
  | a :: l1, b :: l2, h => by
    simp only [List.zipWith_cons_cons, List.cons.injEq]
    refine ⟨by simp [lerp], zipWith_lerp_one l1 l2 (by simpa using h)⟩

/-- C5: for keyframe paths with equal, well-formed control-point counts
(`count % 3 = 1`, i.e. a moveTo point plus whole cubics — otherwise the
C++ loop reads out of bounds) and equal closedness, `PathData::lerp`
emits exactly the same number of control points as the operands and the
same closedness; at `t = 0` it rebuilds exactly the path of the start
keyframe and at `t = 1` exactly the path of the end keyframe. -/
theorem c5_path_lerp (s e : PathDataM) (t : ℚ)
    (hlen : s.mPoints.length = e.mPoints.length)
    (hmod : s.mPoints.length % 3 = 1)
    (hcl : s.mClosed = e.mClosed) :
    pointCount (pathDataLerp s e t) = s.mPoints.length ∧
    hasCloseCmd (pathDataLerp s e t) = s.mClosed ∧
    pathDataLerp s e 0 = pathDataToPath s ∧
    pathDataLerp s e 1 = pathDataToPath e := by
  obtain ⟨a, as, hs⟩ : ∃ a as, s.mPoints = a :: as := by
    cases hsp : s.mPoints with
    | nil => rw [hsp] at hmod; simp at hmod
    | cons a as => exact ⟨a, as, rfl⟩
  obtain ⟨b, bs, he⟩ : ∃ b bs, e.mPoints = b :: bs := by
    cases hep : e.mPoints with
    | nil =>
      rw [hs, hep] at hlen
      simp at hlen
    | cons b bs => exact ⟨b, bs, rfl⟩
  have htail : as.length = bs.length := by
    rw [hs, he] at hlen
    simpa using hlen
  have htailmod : as.length % 3 = 0 := by
    rw [hs] at hmod
    simp only [List.length_cons] at hmod
    omega
  have hemptyF : (s.mPoints.isEmpty || e.mPoints.isEmpty) = false := by
    rw [hs, he]
    rfl
  refine ⟨?_, ?_, ?_, ?_⟩
  · rw [pathDataLerp, hemptyF]
    simp only [Bool.false_eq_true, if_false, hs, he,
      List.zipWith_cons_cons]
    rw [pointCount, pointCount_append,
      cubicsOf_pointCount _ (by rw [List.length_zipWith, htail]; omega)]
    have hclose : pointCount (if s.mClosed then [.close] else []) = 0 := by
      cases s.mClosed <;> rfl
    rw [hclose, List.length_zipWith]
    simp only [List.length_cons]
    omega
  · rw [pathDataLerp, hemptyF]
    simp only [Bool.false_eq_true, if_false, hs, he,
      List.zipWith_cons_cons]
    rw [hasCloseCmd, List.any_cons, List.any_append]
    have h1 : isCloseCmd (.moveTo (lerp a b t)) = false := rfl
    have h2 := cubicsOf_noClose (List.zipWith (fun a b => lerp a b t) as bs)
    rw [hasCloseCmd] at h2
    rw [h1, h2]
    cases s.mClosed <;> rfl
  · rw [pathDataLerp, hemptyF]
    simp only [Bool.false_eq_true, if_false]
    rw [zipWith_lerp_zero s.mPoints e.mPoints hlen, hs, pathDataToPath, hs]
  · rw [pathDataLerp, hemptyF]
    simp only [Bool.false_eq_true, if_false]
    rw [zipWith_lerp_one s.mPoints e.mPoints hlen, he, pathDataToPath, he,
      hcl]

/-- Witness for C5: two closed 4-point paths interpolated at `t = 1/2`;
the result has 4 control points and is closed, and the endpoint
evaluations rebuild the operands. -/
theorem c5_path_lerp_witness :
    pointCount (pathDataLerp
      ⟨[(0, 0), (1, 0), (2, 0), (3, 0)], true⟩
      ⟨[(0, 1), (1, 1), (2, 1), (3, 1)], true⟩ (1 / 2)) = 4 ∧
    hasCloseCmd (pathDataLerp
      ⟨[(0, 0), (1, 0), (2, 0), (3, 0)], true⟩
      ⟨[(0, 1), (1, 1), (2, 1), (3, 1)], true⟩ (1 / 2)) = true ∧
    pathDataLerp
      ⟨[(0, 0), (1, 0), (2, 0), (3, 0)], true⟩
      ⟨[(0, 1), (1, 1), (2, 1), (3, 1)], true⟩ 0 =
      pathDataToPath ⟨[(0, 0), (1, 0), (2, 0), (3, 0)], true⟩ := by
  have h := c5_path_lerp
    ⟨[(0, 0), (1, 0), (2, 0), (3, 0)], true⟩
    ⟨[(0, 1), (1, 1), (2, 1), (3, 1)], true⟩ (1 / 2)
    (by simp) (by simp) rfl
  have h0 := c5_path_lerp
    ⟨[(0, 0), (1, 0), (2, 0), (3, 0)], true⟩
    ⟨[(0, 1), (1, 1), (2, 1), (3, 1)], true⟩ 0
    (by simp) (by simp) rfl
  exact ⟨h.1, h.2.1, h0.2.2.1⟩

/-! ## UTF-8 decoding (`Unicode::convertToUnicode` /
`Unicode::setUtf8Text`, lottiemodel.h lines 667-865)

Bytes are naturals `< 256`.  The C++ reads each continuation byte with
`input.at(++i)`, which throws `std::out_of_range` when the sequence is
truncated; that outcome is the explicit `outOfRange` result below.  The
final `else` branch only prints a diagnostic and advances `i` once more,
skipping the offending byte and the one after it without failing. -/

/-- The three possible outcomes of the C++ conversion loop: a completed
run with the decoded code points, an explicit `return false`, or an
uncaught `std::out_of_range` from `input.at(++i)`. -/
inductive DecodeResult where
  | success (out : List ℕ)
  | failure
  | outOfRange
deriving DecidableEq

/-- `out.push_back(r)` threaded through the rest of the loop. -/
def consUc (x : ℕ) : DecodeResult → DecodeResult
  | .success out => .success (x :: out)
  | r => r

/-- `Unicode::isInvalidByte`. -/
def isInvalidByte (x : ℕ) : Bool :=
  x == 192 || x == 193 || decide (x ≥ 245)

/-- `Unicode::isContinuationByte`. -/
def isContinuationByte (x : ℕ) : Bool :=
  (x &&& 0xc0) == 0x80

/-- The per-continuation-byte rejection test
`(d == 0) || isInvalidByte(d) || !isContinuationByte(d)`. -/
def badCont (d : ℕ) : Bool :=
  d == 0 || isInvalidByte d || !isContinuationByte d

/-- `Unicode::convertToUnicode`, over the input byte list. -/
def convertToUnicode : List ℕ → DecodeResult
  | [] => .success []
  | d :: rest =>
    if d &&& 0x80 == 0 then
      consUc d (convertToUnicode rest)
    else if d &&& 0xe0 == 0xc0 then
      match rest with
      | [] => .outOfRange
      | c1 :: r1 =>
        if badCont c1 then .failure
        else
          let r := (d &&& 0x1f) <<< 6 ||| (c1 &&& 0x3f)
          if r ≤ 0x7F then .failure else consUc r (convertToUnicode r1)
    else if d &&& 0xf0 == 0xe0 then
      match rest with
      | [] => .outOfRange
      | c1 :: r1 =>
        if badCont c1 then .failure
        else
          match r1 with
          | [] => .outOfRange
          | c2 :: r2 =>
            if badCont c2 then .failure
            else
              let r := (d &&& 0x0f) <<< 12 ||| (c1 &&& 0x3f) <<< 6 |||
                (c2 &&& 0x3f)
              if r ≤ 0x7FF then .failure else consUc r (convertToUnicode r2)
    else if d &&& 0xf8 == 0xf0 then
      match rest with
      | [] => .outOfRange
      | c1 :: r1 =>
        if badCont c1 then .failure
        else
          match r1 with
          | [] => .outOfRange
          | c2 :: r2 =>
            if badCont c2 then .failure
            else
              match r2 with
              | [] => .outOfRange
              | c3 :: r3 =>
                if badCont c3 then .failure
                else
                  let r := (d &&& 0x07) <<< 18 ||| (c1 &&& 0x3f) <<< 12 |||
                    (c2 &&& 0x3f) <<< 6 ||| (c3 &&& 0x3f)
                  if r ≤ 0xFFFF then .failure
                  else consUc r (convertToUnicode r3)
    else if d &&& 0xfc == 0xf8 then
      match rest with
      | [] => .outOfRange
      | c1 :: r1 =>
        if badCont c1 then .failure
        else
          match r1 with
          | [] => .outOfRange
          | c2 :: r2 =>
            if badCont c2 then .failure
            else
              match r2 with
              | [] => .outOfRange
              | c3 :: r3 =>
                if badCont c3 then .failure
                else
                  match r3 with
                  | [] => .outOfRange
                  | c4 :: r4 =>
                    if badCont c4 then .failure
                    else
                      let r := (d &&& 0x03) <<< 24 |||
                        (c1 &&& 0x3f) <<< 18 ||| (c2 &&& 0x3f) <<< 12 |||
                        (c3 &&& 0x3f) <<< 6 ||| (c4 &&& 0x3f)
                      if r ≤ 0x1FFFFF then .failure
                      else consUc r (convertToUnicode r4)
    else if d &&& 0xfe == 0xfc then
      match rest with
      | [] => .outOfRange
      | c1 :: r1 =>
        if badCont c1 then .failure
        else
          match r1 with
          | [] => .outOfRange
          | c2 :: r2 =>
            if badCont c2 then .failure
            else
              match r2 with
              | [] => .outOfRange
              | c3 :: r3 =>
                if badCont c3 then .failure
                else
                  match r3 with
                  | [] => .outOfRange
                  | c4 :: r4 =>
                    if badCont c4 then .failure
                    else
                      match r4 with
                      | [] => .outOfRange
                      | c5 :: r5 =>
                        if badCont c5 then .failure
                        else
                          let r := (d &&& 0x01) <<< 30 |||
                            (c1 &&& 0x3f) <<< 24 ||| (c2 &&& 0x3f) <<< 18 |||
                            (c3 &&& 0x3f) <<< 12 ||| (c4 &&& 0x3f) <<< 6 |||
                            (c5 &&& 0x3f)
                          if r ≤ 0x3FFFFFF then .failure
                          else consUc r (convertToUnicode r5)
    else
      match rest with
      | [] => .success []
      | _ :: rest2 => convertToUnicode rest2

/-- `Unicode::setUtf8Text`: the decoded text is stored only when the
conversion returns `true`; on `false` (or an escaping exception) the
members stay at their defaults.  `some out` = text set to `out`; `none` =
text left unset. -/
def setUtf8Text (input : List ℕ) : Option (List ℕ) :=
  match convertToUnicode input with
  | .success out => some out
  | _ => none

/-- C6 evaluation at the failing inputs: the truncated two-byte sequence
`[0xC0]` reaches `input.at(1)` past the end — an `std::out_of_range`
exception, contradicting "fail without throwing"; the lone continuation
byte `[0x80]` is an invalid sequence that is silently skipped, the decode
succeeds and the text is set, contradicting "invalid sequences fail".
(A bad continuation byte, `[0xC3, 0x28]`, does fail cleanly with the text
left unset, as the claim describes.) -/
theorem c6_decode_behavior :
    convertToUnicode [0xC0] = .outOfRange ∧
    convertToUnicode [0x80] = .success [] ∧
    setUtf8Text [0x80] = some [] ∧
    convertToUnicode [0xC3, 0x28] = .failure ∧
    setUtf8Text [0xC3, 0x28] = none := by
  refine ⟨?_, ?_, ?_, ?_, ?_⟩ <;> decide

/-! ## Layer transform fallbacks (`Layer::matrix` / `Layer::opacity`,
lottiemodel.h lines 1325-1333) -/

/-- Modelled from the spec: `VMatrix` lives in the vector module
(`src/vector/vmatrix.h`), which is not part of the modelled header; only
its default construction is needed here.  A default-constructed `VMatrix`
is the identity affine transform (diagonal `1`, everything else `0`). -/
structure VMatrix where
  m11 : ℚ := 1
  m12 : ℚ := 0
  m21 : ℚ := 0
  m22 : ℚ := 1
  mtx : ℚ := 0
  mty : ℚ := 0
deriving DecidableEq

/-- The identity affine matrix. -/
def VMatrix.identity : VMatrix :=
  { m11 := 1, m12 := 0, m21 := 0, m22 := 1, mtx := 0, mty := 0 }

/-- A `Transform` node as seen through `Transform::matrix` /
`Transform::opacity`: its per-frame evaluations.  (The animated matrix
computation, `Transform::Data::matrix`, is implemented outside the
modelled header, so the evaluation maps are abstract here; only the
null-transform fallback of `Layer` is at issue.) -/
structure TransformEval where
  matrixAt : ℤ → Bool → VMatrix
  opacityAt : ℤ → ℚ

/-- The `Layer` members involved in `matrix(frameNo)` and
`opacity(frameNo)`: the nullable `mTransform` pointer (inherited from
`Group`) and the auto-orient flag. -/
structure LayerM where
  mTransform : Option TransformEval := none
  mAutoOrient : Bool := false

/-- `Layer::matrix(frameNo)`:
`mTransform ? mTransform->matrix(frameNo, autoOrient()) : VMatrix{}`. -/
def LayerM.matrix (l : LayerM) (frameNo : ℤ) : VMatrix :=
  match l.mTransform with
  | some t => t.matrixAt frameNo l.mAutoOrient
  | none => {}

/-- `Layer::opacity(frameNo)`:
`mTransform ? mTransform->opacity(frameNo) : 1.0f`. -/
def LayerM.opacity (l : LayerM) (frameNo : ℤ) : ℚ :=
  match l.mTransform with
  | some t => t.opacityAt frameNo
  | none => 1

/-- C10: a layer whose transform pointer is null yields the identity
matrix and opacity `1` at every frame (and for either auto-orient
state). -/
theorem c10_null_transform (frameNo : ℤ) (ao : Bool) :
    (LayerM.mk none ao).matrix frameNo = VMatrix.identity ∧
    (LayerM.mk none ao).opacity frameNo = 1 :=
  ⟨rfl, rfl⟩

end Rlottie
